import Mathlib

/-!
# Verification of `src/utils/moondream_server.py`

A shallow embedding of the single-file FastAPI server that exposes the
moondream vision-language model over four HTTP endpoints
(`/query`, `/caption`, `/query/stream`, `/caption/stream`).

The embedding translates the repository's own glue code — PYTHONPATH
parsing at startup, base64 data-URL splitting, request/response shaping,
and the thread + hand-off-queue streaming bridge — directly from the
source.  External collaborators that are not part of this repository
(the pretrained model and tokenizer, `base64.b64decode`, `PIL.Image.open`,
and the FastAPI framework's mapping of unhandled exceptions to HTTP 500)
are modelled abstractly, following the spec's black-box treatment.
-/

namespace MoondreamServer

/-! ## Python-style string primitives -/

/-- Python `str.split(sep)` for a single-character separator, on character
lists.  Mirrors CPython semantics: the result is never empty and
`"".split(sep) == ['']`. -/
def pySplit1 (sep : Char) : List Char → List (List Char)
  | [] => [[]]
  | c :: cs =>
    if c = sep then [] :: pySplit1 sep cs
    else
      match pySplit1 sep cs with
      | [] => [[c]]
      | h :: t => (c :: h) :: t

/-- Python `str.split(sep)` on strings. -/
def pySplit (sep : Char) (s : String) : List String :=
  (pySplit1 sep s.data).map String.mk

/-- POSIX `os.path.join` for the two-component call used in the source. -/
def osPathJoin (a b : String) : String :=
  if b.data.head? = some '/' then b
  else if a = "" ∨ a.data.getLast? = some '/' then a ++ b
  else a ++ "/" ++ b

/-! ## JSON values and Python's `json.dumps` string escaping

The streaming endpoints emit `json.dumps({"chunk": text}) + "\n"` per
chunk (source lines 77–79).  We embed Python's `json.dumps` escaping for
strings (default `ensure_ascii=True`): `"` and `\` are backslash-escaped,
control characters use the short escapes `\b \t \n \f \r` or `\u00xx`,
printable ASCII is kept verbatim, and every character above `0x7e` is
emitted as `\uxxxx` (lowercase hex), using a surrogate pair for
characters beyond the Basic Multilingual Plane. -/

/-- JSON values, as far as the server's request and response bodies need:
objects with scalar members, strings, numbers (kept as raw text), booleans
and null. -/
inductive JValue where
  | jnull
  | jbool (b : Bool)
  | jnum (raw : String)
  | jstr (s : String)
  | jobj (members : List (String × JValue))

/-- Lowercase hexadecimal digit, as `'%04x' % n` uses. -/
def hexDigitCh (n : Nat) : Char :=
  if n < 10 then Char.ofNat (48 + n) else Char.ofNat (87 + n)

/-- The four hex digits of `'%04x' % n`. -/
def hex4 (n : Nat) : List Char :=
  [hexDigitCh (n / 4096 % 16), hexDigitCh (n / 256 % 16),
   hexDigitCh (n / 16 % 16), hexDigitCh (n % 16)]

/-- A `\uxxxx` escape. -/
def uEscape (n : Nat) : List Char :=
  '\\' :: 'u' :: hex4 n

/-- `json.dumps` escaping of one character (`ensure_ascii=True`). -/
def jsonEscapeChar (c : Char) : List Char :=
  if c = '"' then ['\\', '"']
  else if c = '\\' then ['\\', '\\']
  else if c = '\x08' then ['\\', 'b']
  else if c = '\x09' then ['\\', 't']
  else if c = '\x0a' then ['\\', 'n']
  else if c = '\x0c' then ['\\', 'f']
  else if c = '\x0d' then ['\\', 'r']
  else if c.toNat < 0x20 then uEscape c.toNat
  else if c.toNat ≤ 0x7e then [c]
  else if c.toNat < 0x10000 then uEscape c.toNat
  else uEscape (0xd800 + (c.toNat - 0x10000) / 0x400) ++
       uEscape (0xdc00 + (c.toNat - 0x10000) % 0x400)

/-- `json.dumps` escaping of a character list. -/
def jsonEscape : List Char → List Char
  | [] => []
  | c :: cs => jsonEscapeChar c ++ jsonEscape cs

/-- `json.dumps` of a Python string: quoted, escaped. -/
def jsonDumpsStr (s : String) : String :=
  ⟨'"' :: (jsonEscape s.data ++ ['"'])⟩

/-- One line of the ndjson stream: `json.dumps({"chunk": text}) + "\n"`
(source line 79, with `json.dumps`'s default `": "` key separator). -/
def chunkLine (text : String) : String :=
  "\x7b\"chunk\": " ++ jsonDumpsStr text ++ "\x7d\n"

/-! ## A JSON parser (consumer side)

To state that each emitted line is *independently parseable JSON*, we
give an executable parser for the flat fragment of JSON that covers the
server's lines: optional whitespace, a top-level object whose member
values are scalars (strings with full escape/surrogate handling, numbers,
booleans, null), or a bare scalar.  The parser accepts only
grammar-conformant input, so a successful parse here implies the line is
valid JSON for any conforming consumer. -/

/-- Value of one hexadecimal digit character. -/
def hexVal (c : Char) : Option Nat :=
  if '0' ≤ c ∧ c ≤ '9' then some (c.toNat - 48)
  else if 'a' ≤ c ∧ c ≤ 'f' then some (c.toNat - 87)
  else if 'A' ≤ c ∧ c ≤ 'F' then some (c.toNat - 55)
  else none

/-- Value of a four-digit hex escape. -/
def hex4Val (a b c d : Char) : Option Nat :=
  match hexVal a, hexVal b, hexVal c, hexVal d with
  | some va, some vb, some vc, some vd => some (((va * 16 + vb) * 16 + vc) * 16 + vd)
  | _, _, _, _ => none

/-- The character denoted by a single-character JSON escape. -/
def simpleEscape (e : Char) : Option Char :=
  if e = '"' then some '"'
  else if e = '\\' then some '\\'
  else if e = '/' then some '/'
  else if e = 'b' then some '\x08'
  else if e = 'f' then some '\x0c'
  else if e = 'n' then some '\x0a'
  else if e = 'r' then some '\x0d'
  else if e = 't' then some '\x09'
  else none

/-- Lex the body of a JSON string, after the opening quote, into UTF-16
style code units (each `\uxxxx` contributes its raw value, each literal
or simply-escaped character its code point); returns the units and the
input remaining after the closing quote. -/
def unescapeUnits : List Char → Option (List Nat × List Char)
  | [] => none
  | ch :: rest =>
    if ch = '"' then some ([], rest)
    else if ch = '\\' then
      match rest with
      | [] => none
      | e :: rest1 =>
        if e = 'u' then
          match rest1 with
          | a :: b :: c :: d :: rest2 =>
            match hex4Val a b c d with
            | none => none
            | some n => (unescapeUnits rest2).map (fun p => (n :: p.1, p.2))
          | _ => none
        else
          match simpleEscape e with
          | none => none
          | some c => (unescapeUnits rest1).map (fun p => (c.toNat :: p.1, p.2))
    else if 0x20 ≤ ch.toNat then (unescapeUnits rest).map (fun p => (ch.toNat :: p.1, p.2))
    else none

/-- Combine code units into characters, pairing surrogates; lone or
malformed surrogates are rejected (the serializer never emits them). -/
def combineUnits : List Nat → Option (List Char)
  | [] => some []
  | n :: rest =>
    if 0xd800 ≤ n ∧ n < 0xdc00 then
      match rest with
      | [] => none
      | m :: rest2 =>
        if 0xdc00 ≤ m ∧ m < 0xe000 then
          (combineUnits rest2).map
            (fun cs => Char.ofNat (0x10000 + (n - 0xd800) * 0x400 + (m - 0xdc00)) :: cs)
        else none
    else if 0xdc00 ≤ n ∧ n < 0xe000 then none
    else if n < 0x110000 then (combineUnits rest).map (fun cs => Char.ofNat n :: cs)
    else none

/-- Parse the body of a JSON string, after the opening quote: returns the
decoded characters and the input remaining after the closing quote. -/
def parseJStr (l : List Char) : Option (List Char × List Char) :=
  match unescapeUnits l with
  | none => none
  | some (units, rest) => (combineUnits units).map (fun cs => (cs, rest))

/-- The code units `jsonEscapeChar` writes for one character. -/
def utf16Units (c : Char) : List Nat :=
  if c.toNat < 0x10000 then [c.toNat]
  else [0xd800 + (c.toNat - 0x10000) / 0x400, 0xdc00 + (c.toNat - 0x10000) % 0x400]

/-- The code units of a whole string. -/
def utf16Seq : List Char → List Nat
  | [] => []
  | c :: cs => utf16Units c ++ utf16Seq cs

/-- Skip JSON insignificant whitespace. -/
def skipWs : List Char → List Char
  | [] => []
  | c :: cs => if c = ' ' ∨ c = '\t' ∨ c = '\n' ∨ c = '\r' then skipWs cs else c :: cs

/-- Leading decimal digits and the remainder; `none` if there are none. -/
def parseDigits (l : List Char) : Option (List Char × List Char) :=
  let ds := l.takeWhile (fun c => '0' ≤ c ∧ c ≤ '9')
  if ds.isEmpty then none else some (ds, l.drop ds.length)

/-- Parse a JSON number token, returning its raw text. -/
def parseNumTok (l : List Char) : Option (List Char × List Char) := do
  let (neg, l1) := match l with
    | '-' :: r => (['-'], r)
    | _ => ([], l)
  let (intPart, l2) ← parseDigits l1
  let (fracPart, l3) ← match l2 with
    | '.' :: r => (parseDigits r).map (fun p => ('.' :: p.1, p.2))
    | _ => some (([] : List Char), l2)
  let (expPart, l4) ← match l3 with
    | 'e' :: '+' :: r => (parseDigits r).map (fun p => ('e' :: '+' :: p.1, p.2))
    | 'e' :: '-' :: r => (parseDigits r).map (fun p => ('e' :: '-' :: p.1, p.2))
    | 'e' :: r => (parseDigits r).map (fun p => ('e' :: p.1, p.2))
    | 'E' :: '+' :: r => (parseDigits r).map (fun p => ('E' :: '+' :: p.1, p.2))
    | 'E' :: '-' :: r => (parseDigits r).map (fun p => ('E' :: '-' :: p.1, p.2))
    | 'E' :: r => (parseDigits r).map (fun p => ('E' :: p.1, p.2))
    | _ => some (([] : List Char), l3)
  pure (neg ++ intPart ++ fracPart ++ expPart, l4)

/-- Parse a scalar JSON value: string, `true`, `false`, `null`, or number. -/
def parseScalar (l : List Char) : Option (JValue × List Char) :=
  match l with
  | [] => none
  | ch :: rest =>
    if ch = '"' then (parseJStr rest).map (fun p => (.jstr ⟨p.1⟩, p.2))
    else if l.take 4 = ['t', 'r', 'u', 'e'] then some (.jbool true, l.drop 4)
    else if l.take 5 = ['f', 'a', 'l', 's', 'e'] then some (.jbool false, l.drop 5)
    else if l.take 4 = ['n', 'u', 'l', 'l'] then some (.jnull, l.drop 4)
    else (parseNumTok l).map (fun p => (.jnum ⟨p.1⟩, p.2))

/-- Parse the members of a JSON object, positioned at the first key;
consumes the closing brace.  `fuel` bounds the number of `,`-separated
continuation steps. -/
def parseMembers (fuel : Nat) (l : List Char) :
    Option (List (String × JValue) × List Char) :=
  match l with
  | [] => none
  | ch :: rest =>
    if ch = '"' then
      match parseJStr rest with
      | none => none
      | some (k, r1) =>
        match skipWs r1 with
        | [] => none
        | c2 :: r2 =>
          if c2 = ':' then
            match parseScalar (skipWs r2) with
            | none => none
            | some (v, r3) =>
              match skipWs r3 with
              | [] => none
              | c3 :: r4 =>
                if c3 = ',' then
                  match fuel with
                  | 0 => none
                  | fu + 1 =>
                    (parseMembers fu (skipWs r4)).map
                      (fun p => ((String.mk k, v) :: p.1, p.2))
                else if c3 = '\x7d' then some ([(String.mk k, v)], r4)
                else none
          else none
    else none

/-- Parse a complete JSON document (flat fragment): leading/trailing
whitespace allowed, a top-level object of scalar members or a bare
scalar; the whole input must be consumed. -/
def jsonParse (s : String) : Option JValue :=
  match skipWs s.data with
  | [] => none
  | ch :: r =>
    if ch = '\x7b' then
      match skipWs r with
      | [] => none
      | c2 :: r2 =>
        if c2 = '\x7d' then if (skipWs r2).isEmpty then some (.jobj []) else none
        else
          match parseMembers s.data.length (c2 :: r2) with
          | some (ms, rest) => if (skipWs rest).isEmpty then some (.jobj ms) else none
          | none => none
    else
      match parseScalar (ch :: r) with
      | some (v, rest) => if (skipWs rest).isEmpty then some v else none
      | none => none

/-- The `chunk` field of one streamed line: the line must parse as a JSON
object with exactly one member, keyed `"chunk"`, with a string value. -/
def chunkFieldValue (line : String) : Option String :=
  match jsonParse line with
  | some (.jobj [(k, .jstr v)]) => if k = "chunk" then some v else none
  | _ => none

/-- The `chunk` field values of a list of streamed lines; `none` if any
line is not a well-formed single-key chunk object. -/
def chunkValuesOf : List String → Option (List String)
  | [] => some []
  | line :: rest =>
    match chunkFieldValue line, chunkValuesOf rest with
    | some v, some vs => some (v :: vs)
    | _, _ => none

/-- Concatenation of the `chunk` field values across a list of streamed
lines; `none` if any line is not a well-formed single-key chunk object. -/
def joinedChunks (lines : List String) : Option String :=
  (chunkValuesOf lines).map String.join

/-! ## External collaborators (abstract)

The repository delegates image decoding and inference to libraries that
are not part of this repository.  Per the spec (§2 "Model Collaborator
(external) … treated as a black box", §3), they are modelled as abstract
functions; the embedding carries them as explicit parameters. -/

/-- Python exceptions that the server's own code paths can raise. -/
inductive PyErr where
  | indexError
  | keyError (k : String)
  | typeError
  | attributeError
  | binasciiError
  | unidentifiedImageError
deriving DecidableEq

/-- A `PIL.Image.Image` object, abstractly: the decoded bytes it was
opened from. -/
structure PILImage where
  bytes : List Nat
deriving DecidableEq

/-- An image embedding produced by `moondream.encode_image`; abstract. -/
structure ImageEmbeds where
  val : Nat
deriving DecidableEq

/-- The tokenizer loaded once at startup; abstract. -/
structure Tokenizer where
  id : Nat
deriving DecidableEq

/-- Modelled from the spec: the standard-library collaborators used by
`process_base64_image` — `base64.b64decode` (raises `binascii.Error` on
undecodable input) and `PIL.Image.open` over `io.BytesIO` (raises on
bytes that are not a decodable image).  Their internals are outside this
repository, so they are abstract functions. -/
structure ExternalLibs where
  b64decode : String → Except PyErr (List Nat)
  imageOpen : List Nat → Except PyErr PILImage

/-- Modelled from the spec: the external Model Collaborator (spec §2).
`chunksOf` is the finite sequence of text fragments that
`moondream.answer_question` pushes into a `TextIteratorStreamer`
(`skip_special_tokens=True`) for a given embedding, question and
tokenizer. -/
structure Model where
  encode_image : PILImage → ImageEmbeds
  chunksOf : ImageEmbeds → JValue → Tokenizer → List String

/-- Modelled from the spec: the non-streaming
`moondream.answer_question(image_embeds, question, tokenizer)` call
returns the full generated text, i.e. the concatenation of the
incremental fragments a streamer would receive for the same inputs
(spec §4.1 "Non-streaming variant: calls the same generation operation
synchronously and returns the full text as a single value" and §8's
consistency property). -/
def Model.answer_question (m : Model) (image_embeds : ImageEmbeds)
    (question : JValue) (tokenizer : Tokenizer) : String :=
  String.join (m.chunksOf image_embeds question tokenizer)

/-! ## The server's own request-handling code -/

/-- `process_base64_image` (source lines 58–62):
`base64_data = image_url.split(',')[1]` — an unguarded index that raises
`IndexError` when the URL contains no comma — then `base64.b64decode`
and `PIL.Image.open`. -/
def process_base64_image (ext : ExternalLibs) (image_url : String) :
    Except PyErr PILImage :=
  match (pySplit ',' image_url).get? 1 with
  | none => .error .indexError
  | some base64_data => ext.b64decode base64_data >>= ext.imageOpen

/-- `data[k]` on a parsed JSON body: `KeyError` when the key is missing,
`TypeError` when the body is not an object. -/
def getItem (data : JValue) (k : String) : Except PyErr JValue :=
  match data with
  | .jobj members =>
    match members.lookup k with
    | some v => .ok v
    | none => .error (.keyError k)
  | _ => .error .typeError

/-- The string content of a JSON value that the code calls `.split` on:
a non-string raises `AttributeError` inside `process_base64_image`. -/
def asStr : JValue → Except PyErr String
  | .jstr s => .ok s
  | _ => .error .attributeError

/-- The fixed prompt the caption endpoints pass in place of a user
question (source lines 101 and 130). -/
def captionPrompt : String := "Generate a detailed caption for this image."

/-- `stream_response` (source lines 64–79), denotationally: the lines the
generator yields, one `json.dumps({"chunk": text}) + "\n"` per fragment
pushed by the worker thread, in generation order. -/
def stream_response (m : Model) (tokenizer : Tokenizer)
    (image_embeds : ImageEmbeds) (question : JValue) : List String :=
  (m.chunksOf image_embeds question tokenizer).map chunkLine

/-- An HTTP response body: a JSON object, or an
`application/x-ndjson` streaming body. -/
inductive Response where
  | json (body : JValue)
  | stream (lines : List String)

/-- The expression `process_base64_image(data["image_url"])` shared by
all four handlers: look up `image_url` (KeyError if missing), call
`.split` on it (AttributeError if not a string), decode.  -/
def imageOf (ext : ExternalLibs) (data : JValue) : Except PyErr PILImage := do
  let url ← getItem data "image_url"
  process_base64_image ext (← asStr url)

/-- `POST /query` (source lines 108–121). -/
def query (ext : ExternalLibs) (m : Model) (tokenizer : Tokenizer)
    (data : JValue) : Except PyErr Response := do
  let image ← imageOf ext data
  let question ← getItem data "question"
  let image_embeds := m.encode_image image
  let answer := m.answer_question image_embeds question tokenizer
  pure (.json (.jobj [("answer", .jstr answer)]))

/-- `POST /caption` (source lines 123–135). -/
def caption (ext : ExternalLibs) (m : Model) (tokenizer : Tokenizer)
    (data : JValue) : Except PyErr Response := do
  let image ← imageOf ext data
  let image_embeds := m.encode_image image
  let cap := m.answer_question image_embeds (.jstr captionPrompt) tokenizer
  pure (.json (.jobj [("caption", .jstr cap)]))

/-- `POST /query/stream` (source lines 81–93). -/
def query_stream (ext : ExternalLibs) (m : Model) (tokenizer : Tokenizer)
    (data : JValue) : Except PyErr Response := do
  let image ← imageOf ext data
  let question ← getItem data "question"
  let image_embeds := m.encode_image image
  pure (.stream (stream_response m tokenizer image_embeds question))

/-- `POST /caption/stream` (source lines 95–106). -/
def caption_stream (ext : ExternalLibs) (m : Model) (tokenizer : Tokenizer)
    (data : JValue) : Except PyErr Response := do
  let image ← imageOf ext data
  let image_embeds := m.encode_image image
  pure (.stream (stream_response m tokenizer image_embeds (.jstr captionPrompt)))

/-- Modelled from the spec: FastAPI (external framework) maps an
unhandled exception escaping a handler to a generic server error,
HTTP 500 (spec §7: "unhandled failures (mapped to a generic server error
by the HTTP framework)"); a handler that returns normally yields 200. -/
def statusOf : Except PyErr Response → Nat
  | .ok _ => 200
  | .error _ => 500

/-- 4xx? -/
def isClientError (status : Nat) : Bool :=
  400 ≤ status && status < 500

/-! ## Startup checks (module level, source lines 24–42) -/

/-- The weight file the source looks for. -/
def weightFileName : String := "moondream-2b-int8.mf.gz"

/-- `os.name`-dependent separator; the POSIX case (`':'`). -/
def pathSep : Char := ':'

/-- The process environment as startup sees it: the `PYTHONPATH`
variable (`none` when unset) and the `os.path.exists` oracle. -/
structure Env where
  pythonpath : Option String
  pathExists : String → Bool

/-- The `RuntimeError`s raised by the module-level startup checks. -/
inductive StartupErr where
  | pythonpathNotSet
  | tooFewPaths
  | modelFileNotFound
deriving DecidableEq

/-- The module-level startup checks, up to the point where model loading
begins (source lines 24–42): `os.environ.get('PYTHONPATH', '')` must be
non-empty, its split must have at least two entries, and the weight file
joined onto the second entry must exist; otherwise a `RuntimeError` is
raised before the server ever serves a request.  Returns the model path
handed to `Moondream.from_pretrained`. -/
def startupChecks (env : Env) : Except StartupErr String :=
  let pythonpath := env.pythonpath.getD ""
  if pythonpath = "" then .error .pythonpathNotSet
  else
    let paths := pySplit pathSep pythonpath
    if paths.length < 2 then .error .tooFewPaths
    else
      let model_path := osPathJoin (paths.getD 1 "") weightFileName
      if env.pathExists model_path then .ok model_path
      else .error .modelFileNotFound

/-! ## The streaming bridge, operationally (source lines 64–79)

`stream_response` starts `moondream.answer_question` on a fresh
`Thread`, handing it a `TextIteratorStreamer`; the streamer's internal
FIFO queue is the hand-off channel.  The worker pushes each completed
text fragment; when generation finishes normally the streamer receives
its end signal, after which the consuming generator terminates.  If the
worker raises, the end signal is never placed and no error object ever
enters the queue.

We model this as a small transition system over the bridge state and
prove the delivery properties over *all* interleavings of worker and
consumer steps. -/

/-- State of the bridge: fragments the worker has yet to produce, the
FIFO hand-off queue, whether the end signal has been placed, and the
lines the consumer has yielded so far. -/
structure BridgeState where
  pending : List String
  queue : List String
  done : Bool
  emitted : List String
deriving DecidableEq

/-- What the worker thread does after its last push: return normally
from `answer_question` (end signal placed) or raise (no end signal). -/
inductive WorkerOutcome where
  | completes
  | raises
deriving DecidableEq

/-- Initial bridge state for a given fragment sequence. -/
def initBridge (chunks : List String) : BridgeState :=
  ⟨chunks, [], false, []⟩

/-- One interleaving step of the bridge: the worker pushes its next
fragment onto the queue, the worker finishes (only when it completes
rather than raises), or the consumer pops the front of the queue and
yields it as a wrapped ndjson line. -/
inductive BridgeStep (o : WorkerOutcome) : BridgeState → BridgeState → Prop
  | produce (c : String) (p q : List String) (e : List String) :
      BridgeStep o ⟨c :: p, q, false, e⟩ ⟨p, q ++ [c], false, e⟩
  | finish (q : List String) (e : List String) :
      o = .completes →
      BridgeStep o ⟨[], q, false, e⟩ ⟨[], q, true, e⟩
  | consume (c : String) (p q : List String) (d : Bool) (e : List String) :
      BridgeStep o ⟨p, c :: q, d, e⟩ ⟨p, q, d, e ++ [chunkLine c]⟩

/-- Reachability of bridge states by any interleaving. -/
def BridgeReach (o : WorkerOutcome) : BridgeState → BridgeState → Prop :=
  Relation.ReflTransGen (BridgeStep o)

/-- The consumer's iteration has ended: the end signal was placed and
the queue has been drained. -/
def BridgeState.closed (s : BridgeState) : Prop :=
  s.done = true ∧ s.queue = []

/-! ## Module-level process state and sequential request execution

The model, tokenizer and library bindings are created once at import
time and shared by every handler (source lines 22–56).  To state that no
handler mutates them, we run requests against an explicitly threaded
process state. -/

/-- The module-level bindings a handler can see. -/
structure ProcState where
  ext : ExternalLibs
  moondream : Model
  tokenizer : Tokenizer

/-- The four routes. -/
inductive Endpoint where
  | query
  | caption
  | queryStream
  | captionStream
deriving DecidableEq

/-- Dispatch one request.  The source handlers only *read* the
module-level bindings (`moondream`, `tokenizer`); no statement in any
handler assigns a module-level name, so the state component comes back
unchanged. -/
def handle (ep : Endpoint) (st : ProcState) (data : JValue) :
    Except PyErr Response × ProcState :=
  match ep with
  | .query => (query st.ext st.moondream st.tokenizer data, st)
  | .caption => (caption st.ext st.moondream st.tokenizer data, st)
  | .queryStream => (query_stream st.ext st.moondream st.tokenizer data, st)
  | .captionStream => (caption_stream st.ext st.moondream st.tokenizer data, st)

/-- Execute a sequence of requests, threading the process state. -/
def serve (st : ProcState) : List (Endpoint × JValue) →
    List (Except PyErr Response) × ProcState
  | [] => ([], st)
  | (ep, d) :: rs =>
    let rst := handle ep st d
    let rest := serve rst.2 rs
    (rst.1 :: rest.1, rest.2)

/-! ## Claim-side readings of `process_base64_image` -/

/-- The segment of the data URL that the source hands to
`base64.b64decode`: `image_url.split(',')[1]` (source line 60);
`none` marks the `IndexError`. -/
def decodedSegment (image_url : String) : Option String :=
  (pySplit ',' image_url).get? 1

/-- Stated from the claim's words, for comparison: "the text after the
first comma". -/
def textAfterFirstComma (s : String) : Option String :=
  if ',' ∈ s.data then some ⟨(s.data.dropWhile (· ≠ ',')).drop 1⟩ else none

/-! ## Concrete instances for closed evaluations -/

/-- A concrete external-library instance: base64 decoding records the
codepoints of its input (so theorems can observe exactly which text was
decoded), and every byte list opens as an image. -/
def extRecorder : ExternalLibs where
  b64decode s := .ok (s.data.map Char.toNat)
  imageOpen bs := .ok ⟨bs⟩

/-- A concrete model that always generates the given fragments. -/
def modelConst (chunks : List String) : Model where
  encode_image _ := ⟨0⟩
  chunksOf _ _ _ := chunks

/-- A concrete tokenizer. -/
def tok0 : Tokenizer := ⟨0⟩

/-- A concrete well-formed request body. -/
def body0 : JValue :=
  .jobj [("image_url", .jstr "data:image/png;base64,QUJD"), ("question", .jstr "What?")]

/-! ## Lemmas: the escape/parse roundtrip for JSON strings -/

theorem charValidRange (c : Char) :
    c.toNat < 0xd800 ∨ (0xe000 ≤ c.toNat ∧ c.toNat < 0x110000) := by
  rcases c.valid with h | h
  · exact Or.inl h
  · exact Or.inr h

theorem hexVal_hexDigitCh (d : Nat) (h : d < 16) :
    hexVal (hexDigitCh d) = some d := by
  interval_cases d <;> decide

theorem hexDigitCh_printable (d : Nat) (h : d < 16) :
    0x20 ≤ (hexDigitCh d).toNat ∧ (hexDigitCh d).toNat ≤ 0x7e := by
  interval_cases d <;> decide

theorem hex_recompose (v : Nat) (h : v < 65536) :
    ((v / 4096 % 16 * 16 + v / 256 % 16) * 16 + v / 16 % 16) * 16 + v % 16 = v := by
  omega

theorem hex4Val_hex4 (v : Nat) (h : v < 0x10000) :
    hex4Val (hexDigitCh (v / 4096 % 16)) (hexDigitCh (v / 256 % 16))
      (hexDigitCh (v / 16 % 16)) (hexDigitCh (v % 16)) = some v := by
  have e1 := hexVal_hexDigitCh (v / 4096 % 16) (by omega)
  have e2 := hexVal_hexDigitCh (v / 256 % 16) (by omega)
  have e3 := hexVal_hexDigitCh (v / 16 % 16) (by omega)
  have e4 := hexVal_hexDigitCh (v % 16) (by omega)
  simp only [hex4Val, e1, e2, e3, e4]
  rw [hex_recompose v h]

/-- Lexing one `\uxxxx` escape. -/
theorem unescapeUnits_uEscape (n : Nat) (hn : n < 0x10000) (tail : List Char) :
    unescapeUnits (uEscape n ++ tail) =
      (unescapeUnits tail).map (fun p => (n :: p.1, p.2)) := by
  simp only [uEscape, hex4, List.cons_append, List.nil_append]
  rw [unescapeUnits.eq_def]
  simp +decide [hex4Val_hex4 n hn]

/-- Lexing one escaped character: the lexer undoes `jsonEscapeChar`,
producing that character's code units. -/
theorem unescapeUnits_step (c : Char) (tail : List Char) :
    unescapeUnits (jsonEscapeChar c ++ tail) =
      (unescapeUnits tail).map (fun p => (utf16Units c ++ p.1, p.2)) := by
  have hv := charValidRange c
  by_cases h1 : c = '"'
  · subst h1
    simp only [show jsonEscapeChar '"' = ['\\', '"'] from rfl, List.cons_append,
      List.nil_append]
    rw [unescapeUnits.eq_def]
    simp [simpleEscape, utf16Units]
  by_cases h2 : c = '\\'
  · subst h2
    simp only [show jsonEscapeChar '\\' = ['\\', '\\'] from rfl, List.cons_append,
      List.nil_append]
    rw [unescapeUnits.eq_def]
    simp [simpleEscape, utf16Units]
  by_cases h3 : c = '\x08'
  · subst h3
    simp only [show jsonEscapeChar '\x08' = ['\\', 'b'] from rfl, List.cons_append,
      List.nil_append]
    rw [unescapeUnits.eq_def]
    simp [simpleEscape, utf16Units]
  by_cases h4 : c = '\x09'
  · subst h4
    simp only [show jsonEscapeChar '\x09' = ['\\', 't'] from rfl, List.cons_append,
      List.nil_append]
    rw [unescapeUnits.eq_def]
    simp [simpleEscape, utf16Units]
  by_cases h5 : c = '\x0a'
  · subst h5
    simp only [show jsonEscapeChar '\x0a' = ['\\', 'n'] from rfl, List.cons_append,
      List.nil_append]
    rw [unescapeUnits.eq_def]
    simp [simpleEscape, utf16Units]
  by_cases h6 : c = '\x0c'
  · subst h6
    simp only [show jsonEscapeChar '\x0c' = ['\\', 'f'] from rfl, List.cons_append,
      List.nil_append]
    rw [unescapeUnits.eq_def]
    simp [simpleEscape, utf16Units]
  by_cases h7 : c = '\x0d'
  · subst h7
    simp only [show jsonEscapeChar '\x0d' = ['\\', 'r'] from rfl, List.cons_append,
      List.nil_append]
    rw [unescapeUnits.eq_def]
    simp [simpleEscape, utf16Units]
  by_cases h8 : c.toNat < 0x20
  · -- low control character: \u00xx
    simp only [jsonEscapeChar, if_neg h1, if_neg h2, if_neg h3, if_neg h4,
      if_neg h5, if_neg h6, if_neg h7, if_pos h8]
    rw [unescapeUnits_uEscape c.toNat (by omega)]
    simp [utf16Units, show c.toNat < 0x10000 by omega]
  by_cases h9 : c.toNat ≤ 0x7e
  · -- printable ASCII, kept verbatim
    simp only [jsonEscapeChar, if_neg h1, if_neg h2, if_neg h3, if_neg h4,
      if_neg h5, if_neg h6, if_neg h7, if_neg h8, if_pos h9,
      List.cons_append, List.nil_append]
    rw [unescapeUnits.eq_def]
    simp only [if_neg h1, if_neg h2, if_pos (show 0x20 ≤ c.toNat by omega)]
    simp [utf16Units, show c.toNat < 0x10000 by omega]
  by_cases h10 : c.toNat < 0x10000
  · -- BMP, non-ASCII: \uxxxx
    simp only [jsonEscapeChar, if_neg h1, if_neg h2, if_neg h3, if_neg h4,
      if_neg h5, if_neg h6, if_neg h7, if_neg h8, if_neg h9, if_pos h10]
    rw [unescapeUnits_uEscape c.toNat (by omega)]
    simp [utf16Units, h10]
  · -- beyond the BMP: surrogate pair
    have hub : c.toNat < 0x110000 := by omega
    simp only [jsonEscapeChar, if_neg h1, if_neg h2, if_neg h3, if_neg h4,
      if_neg h5, if_neg h6, if_neg h7, if_neg h8, if_neg h9, if_neg h10,
      List.append_assoc]
    rw [unescapeUnits_uEscape (0xd800 + (c.toNat - 0x10000) / 0x400) (by omega),
      unescapeUnits_uEscape (0xdc00 + (c.toNat - 0x10000) % 0x400) (by omega)]
    simp [utf16Units, if_neg h10, Option.map_map, Function.comp_def]

/-- The lexer undoes `jsonEscape` up to the closing quote. -/
theorem unescapeUnits_jsonEscape (cs : List Char) (rest : List Char) :
    unescapeUnits (jsonEscape cs ++ '"' :: rest) = some (utf16Seq cs, rest) := by
  induction cs with
  | nil =>
    simp only [jsonEscape, List.nil_append, utf16Seq]
    rw [unescapeUnits.eq_def]
    simp
  | cons c cs ih =>
    rw [jsonEscape, List.append_assoc, unescapeUnits_step, ih, utf16Seq]
    rfl

/-- Pairing the code units of a string recovers the string. -/
theorem combineUnits_utf16Seq (cs : List Char) :
    combineUnits (utf16Seq cs) = some cs := by
  induction cs with
  | nil => rfl
  | cons c cs ih =>
    have hv := charValidRange c
    by_cases h : c.toNat < 0x10000
    · rw [utf16Seq, utf16Units, if_pos h, List.singleton_append, combineUnits.eq_def]
      simp [show ¬(0xd800 ≤ c.toNat ∧ c.toNat < 0xdc00) by omega,
        show ¬(0xdc00 ≤ c.toNat ∧ c.toNat < 0xe000) by omega,
        show c.toNat < 0x110000 by omega, ih, Char.ofNat_toNat]
    · rw [utf16Seq, utf16Units, if_neg h, List.cons_append, List.cons_append,
        List.nil_append, combineUnits.eq_def]
      simp [show 0xd800 ≤ 0xd800 + (c.toNat - 0x10000) / 0x400 ∧
            0xd800 + (c.toNat - 0x10000) / 0x400 < 0xdc00 by omega,
        show 0xdc00 ≤ 0xdc00 + (c.toNat - 0x10000) % 0x400 ∧
            0xdc00 + (c.toNat - 0x10000) % 0x400 < 0xe000 by omega,
        ih,
        show 0x10000 + (c.toNat - 0x10000) / 0x400 * 0x400 +
            (c.toNat - 0x10000) % 0x400 = c.toNat by omega,
        Char.ofNat_toNat]

/-- The parser undoes `jsonEscape` up to the closing quote. -/
theorem parseJStr_jsonEscape (cs : List Char) (rest : List Char) :
    parseJStr (jsonEscape cs ++ '"' :: rest) = some (cs, rest) := by
  rw [parseJStr, unescapeUnits_jsonEscape]
  simp [combineUnits_utf16Seq]

/-- Parsing the member list of a single-member `chunk` object. -/
theorem parseMembers_chunk (F : Nat) (t : String) (tail : List Char) :
    parseMembers F ('"' :: 'c' :: 'h' :: 'u' :: 'n' :: 'k' :: '"' :: ':' :: ' ' :: '"' ::
        (jsonEscape t.data ++ '"' :: '\x7d' :: tail)) =
      some ([("chunk", JValue.jstr t)], tail) := by
  have hkey : parseJStr ('c' :: 'h' :: 'u' :: 'n' :: 'k' :: '"' :: ':' :: ' ' :: '"' ::
      (jsonEscape t.data ++ '"' :: '\x7d' :: tail)) =
      some (['c', 'h', 'u', 'n', 'k'],
        ':' :: ' ' :: '"' :: (jsonEscape t.data ++ '"' :: '\x7d' :: tail)) := by
    have hform : ('c' :: 'h' :: 'u' :: 'n' :: 'k' :: '"' :: ':' :: ' ' :: '"' ::
        (jsonEscape t.data ++ '"' :: '\x7d' :: tail)) =
        jsonEscape ['c', 'h', 'u', 'n', 'k'] ++ '"' :: (':' :: ' ' :: '"' ::
        (jsonEscape t.data ++ '"' :: '\x7d' :: tail)) := rfl
    rw [hform, parseJStr_jsonEscape]
  have hval : parseJStr (jsonEscape t.data ++ '"' :: '\x7d' :: tail) =
      some (t.data, '\x7d' :: tail) := parseJStr_jsonEscape t.data _
  have hmkt : String.mk t.data = t := rfl
  rw [parseMembers.eq_def]
  simp [hkey, hval, skipWs, parseScalar, hmkt]

/-- Parsing a whole serialized single-member `chunk` object (with any
all-whitespace tail). -/
theorem jsonParse_chunkObj (s : String) (t : String) (tail : List Char)
    (hdata : s.data = '\x7b' :: '"' :: 'c' :: 'h' :: 'u' :: 'n' :: 'k' :: '"' :: ':' ::
      ' ' :: '"' :: (jsonEscape t.data ++ '"' :: '\x7d' :: tail))
    (htail : skipWs tail = []) :
    jsonParse s = some (.jobj [("chunk", .jstr t)]) := by
  unfold jsonParse
  rw [hdata]
  simp [skipWs, parseMembers_chunk, htail]

/-- Each streamed line carries exactly its chunk text. -/
theorem chunkFieldValue_chunkLine (t : String) :
    chunkFieldValue (chunkLine t) = some t := by
  have hdata : (chunkLine t).data = '\x7b' :: '"' :: 'c' :: 'h' :: 'u' :: 'n' :: 'k' ::
      '"' :: ':' :: ' ' :: '"' :: (jsonEscape t.data ++ '"' :: '\x7d' :: ['\n']) := by
    have h1 : ("\x7b\"chunk\": ").data =
        ['\x7b', '"', 'c', 'h', 'u', 'n', 'k', '"', ':', ' '] := rfl
    have h2 : ("\x7d\n").data = ['\x7d', '\n'] := rfl
    have h3 : (jsonDumpsStr t).data = '"' :: (jsonEscape t.data ++ ['"']) := rfl
    simp [chunkLine, String.data_append, h1, h2, h3]
  unfold chunkFieldValue
  rw [jsonParse_chunkObj (chunkLine t) t ['\n'] hdata rfl]
  simp

/-- Every character of a `\uxxxx` escape is printable ASCII. -/
theorem uEscape_printable (n : Nat) :
    ∀ c ∈ uEscape n, 0x20 ≤ c.toNat ∧ c.toNat ≤ 0x7e := by
  intro c hc
  simp only [uEscape, hex4, List.mem_cons, List.not_mem_nil, or_false] at hc
  rcases hc with rfl | rfl | rfl | rfl | rfl | rfl
  · decide
  · decide
  · exact hexDigitCh_printable _ (Nat.mod_lt _ (by omega))
  · exact hexDigitCh_printable _ (Nat.mod_lt _ (by omega))
  · exact hexDigitCh_printable _ (Nat.mod_lt _ (by omega))
  · exact hexDigitCh_printable _ (Nat.mod_lt _ (by omega))

/-- `json.dumps` escaping emits only printable ASCII characters
(`ensure_ascii=True`), in particular never a raw newline. -/
theorem jsonEscapeChar_printable (c : Char) :
    ∀ c' ∈ jsonEscapeChar c, 0x20 ≤ c'.toNat ∧ c'.toNat ≤ 0x7e := by
  by_cases h1 : c = '"'
  · subst h1
    intro c' hc'
    simp only [show jsonEscapeChar '"' = ['\\', '"'] from rfl, List.mem_cons,
      List.not_mem_nil, or_false] at hc'
    rcases hc' with rfl | rfl <;> decide
  by_cases h2 : c = '\\'
  · subst h2
    intro c' hc'
    simp only [show jsonEscapeChar '\\' = ['\\', '\\'] from rfl, List.mem_cons,
      List.not_mem_nil, or_false] at hc'
    rcases hc' with rfl | rfl <;> decide
  by_cases h3 : c = '\x08'
  · subst h3
    intro c' hc'
    simp only [show jsonEscapeChar '\x08' = ['\\', 'b'] from rfl, List.mem_cons,
      List.not_mem_nil, or_false] at hc'
    rcases hc' with rfl | rfl <;> decide
  by_cases h4 : c = '\x09'
  · subst h4
    intro c' hc'
    simp only [show jsonEscapeChar '\x09' = ['\\', 't'] from rfl, List.mem_cons,
      List.not_mem_nil, or_false] at hc'
    rcases hc' with rfl | rfl <;> decide
  by_cases h5 : c = '\x0a'
  · subst h5
    intro c' hc'
    simp only [show jsonEscapeChar '\x0a' = ['\\', 'n'] from rfl, List.mem_cons,
      List.not_mem_nil, or_false] at hc'
    rcases hc' with rfl | rfl <;> decide
  by_cases h6 : c = '\x0c'
  · subst h6
    intro c' hc'
    simp only [show jsonEscapeChar '\x0c' = ['\\', 'f'] from rfl, List.mem_cons,
      List.not_mem_nil, or_false] at hc'
    rcases hc' with rfl | rfl <;> decide
  by_cases h7 : c = '\x0d'
  · subst h7
    intro c' hc'
    simp only [show jsonEscapeChar '\x0d' = ['\\', 'r'] from rfl, List.mem_cons,
      List.not_mem_nil, or_false] at hc'
    rcases hc' with rfl | rfl <;> decide
  by_cases h8 : c.toNat < 0x20
  · simp only [jsonEscapeChar, if_neg h1, if_neg h2, if_neg h3, if_neg h4, if_neg h5,
      if_neg h6, if_neg h7, if_pos h8]
    exact uEscape_printable c.toNat
  by_cases h9 : c.toNat ≤ 0x7e
  · simp only [jsonEscapeChar, if_neg h1, if_neg h2, if_neg h3, if_neg h4, if_neg h5,
      if_neg h6, if_neg h7, if_neg h8, if_pos h9]
    intro c' hc'
    simp only [List.mem_cons, List.not_mem_nil, or_false] at hc'
    subst hc'
    omega
  by_cases h10 : c.toNat < 0x10000
  · simp only [jsonEscapeChar, if_neg h1, if_neg h2, if_neg h3, if_neg h4, if_neg h5,
      if_neg h6, if_neg h7, if_neg h8, if_neg h9, if_pos h10]
    exact uEscape_printable c.toNat
  · simp only [jsonEscapeChar, if_neg h1, if_neg h2, if_neg h3, if_neg h4, if_neg h5,
      if_neg h6, if_neg h7, if_neg h8, if_neg h9, if_neg h10]
    intro c' hc'
    rcases List.mem_append.mp hc' with h | h
    · exact uEscape_printable _ c' h
    · exact uEscape_printable _ c' h

/-- `jsonEscape` emits only printable ASCII characters. -/
theorem jsonEscape_printable (cs : List Char) :
    ∀ c' ∈ jsonEscape cs, 0x20 ≤ c'.toNat ∧ c'.toNat ≤ 0x7e := by
  induction cs with
  | nil => intro c' hc'; simp [jsonEscape] at hc'
  | cons c cs ih =>
    intro c' hc'
    rw [jsonEscape] at hc'
    rcases List.mem_append.mp hc' with h | h
    · exact jsonEscapeChar_printable c c' h
    · exact ih c' h

theorem stringJoin_cons (s : String) (l : List String) :
    String.join (s :: l) = s ++ String.join l := by
  apply String.ext
  simp [String.join_eq, String.data_append]

theorem chunkValuesOf_map_chunkLine (cs : List String) :
    chunkValuesOf (cs.map chunkLine) = some cs := by
  induction cs with
  | nil => rfl
  | cons c cs ih => simp [chunkValuesOf, chunkFieldValue_chunkLine, ih]

/-- Joining the `chunk` fields of wrapped lines recovers the
concatenation of the wrapped fragments. -/
theorem joinedChunks_map_chunkLine (cs : List String) :
    joinedChunks (cs.map chunkLine) = some (String.join cs) := by
  simp [joinedChunks, chunkValuesOf_map_chunkLine]

/-! ## Lemmas: Python `str.split` -/

theorem pySplit1_not_mem (sep : Char) (l : List Char) :
    sep ∉ l → pySplit1 sep l = [l] := by
  induction l with
  | nil => intro _; rfl
  | cons c cs ih =>
    intro h
    rw [List.mem_cons] at h
    push_neg at h
    rw [pySplit1, if_neg (fun e => h.1 e.symm), ih h.2]

theorem pySplit1_append_sep (sep : Char) (p r : List Char) :
    sep ∉ p → pySplit1 sep (p ++ sep :: r) = p :: pySplit1 sep r := by
  induction p with
  | nil => intro _; rw [List.nil_append, pySplit1, if_pos rfl]
  | cons c p ih =>
    intro hp
    rw [List.mem_cons] at hp
    push_neg at hp
    rw [List.cons_append, pySplit1, if_neg (fun e => hp.1 e.symm), ih hp.2]

theorem pySplit1_head (sep : Char) (l : List Char) :
    (pySplit1 sep l).head? = some (l.takeWhile (· ≠ sep)) := by
  induction l with
  | nil => rfl
  | cons c cs ih =>
    by_cases hc : c = sep
    · subst hc
      rw [pySplit1, if_pos rfl]
      simp [List.takeWhile_cons]
    · rw [pySplit1, if_neg hc]
      cases hps : pySplit1 sep cs with
      | nil => rw [hps] at ih; simp at ih
      | cons hh tt =>
        rw [hps] at ih
        simp only [List.head?_cons, Option.some.injEq] at ih
        simp [List.takeWhile_cons, hc, ih]

/-! ## Lemmas: the streaming bridge -/

/-- The bridge invariant: at every reachable state, a prefix of the
fragment sequence has been emitted (wrapped in order), the queue holds
the next contiguous segment, the worker still owes the rest, and the end
signal is present only if the worker completes and has produced
everything. -/
theorem bridge_invariant (o : WorkerOutcome) (cs : List String) (s : BridgeState)
    (h : BridgeReach o (initBridge cs) s) :
    ∃ i j, i ≤ j ∧ j ≤ cs.length ∧
      s.emitted = (cs.take i).map chunkLine ∧
      s.queue = (cs.take j).drop i ∧
      s.pending = cs.drop j ∧
      (s.done = true → o = .completes ∧ j = cs.length) := by
  induction h with
  | refl =>
    refine ⟨0, 0, Nat.le_refl 0, Nat.zero_le _, ?_, ?_, ?_, ?_⟩ <;> simp [initBridge]
  | tail hr hstep ih =>
    obtain ⟨i, j, hij, hjl, he, hq, hp, hd⟩ := ih
    cases hstep with
    | produce c p q e =>
      simp only at he hq hp hd
      have hjlt : j < cs.length := by
        by_contra hh
        rw [List.drop_eq_nil_iff.mpr (by omega)] at hp
        exact absurd hp (List.cons_ne_nil c p)
      have hdj := List.drop_eq_getElem_cons hjlt
      rw [hdj] at hp
      injection hp with hc hp'
      refine ⟨i, j + 1, by omega, by omega, ?_, ?_, ?_, ?_⟩
      · exact he
      · simp only
        rw [hq, hc, ← List.take_concat_get' cs j hjlt,
          List.drop_append_of_le_length (by simp [List.length_take]; omega)]
      · exact hp'
      · intro hh; exact Bool.noConfusion hh
    | finish q e ho =>
      simp only at he hq hp hd
      have hj : j = cs.length := by
        have hlen : cs.length ≤ j := List.drop_eq_nil_iff.mp hp.symm
        omega
      exact ⟨i, j, hij, hjl, he, hq, hp, fun _ => ⟨ho, hj⟩⟩
    | consume c p q d e =>
      simp only at he hq hp hd
      have hilt : i < j := by
        by_contra hh
        have hnil : (cs.take j).drop i = [] :=
          List.drop_eq_nil_iff.mpr (by simp [List.length_take]; omega)
        rw [hnil] at hq
        exact absurd hq (List.cons_ne_nil c q)
      have hillen : i < cs.length := by omega
      have htl : i < (cs.take j).length := by simp [List.length_take]; omega
      have hdq := List.drop_eq_getElem_cons htl
      rw [hdq, List.getElem_take] at hq
      injection hq with hc hq'
      refine ⟨i + 1, j, by omega, hjl, ?_, ?_, hp, hd⟩
      · simp only
        rw [he, hc, ← List.take_concat_get' cs i hillen, List.map_append]
        rfl
      · exact hq'

/-- The worker can always push all its fragments. -/
theorem bridge_produce_all (o : WorkerOutcome) (cs : List String) :
    ∀ q e, BridgeReach o ⟨cs, q, false, e⟩ ⟨[], q ++ cs, false, e⟩ := by
  induction cs with
  | nil => intro q e; simpa using Relation.ReflTransGen.refl
  | cons c cs ih =>
    intro q e
    refine Relation.ReflTransGen.head (BridgeStep.produce c cs q e) ?_
    simpa [List.append_assoc] using ih (q ++ [c]) e

/-- The consumer can always drain the queue. -/
theorem bridge_consume_all (o : WorkerOutcome) (q : List String) :
    ∀ d e, BridgeReach o ⟨[], q, d, e⟩ ⟨[], [], d, e ++ q.map chunkLine⟩ := by
  induction q with
  | nil => intro d e; simpa using Relation.ReflTransGen.refl
  | cons c q ih =>
    intro d e
    refine Relation.ReflTransGen.head (BridgeStep.consume c [] q d e) ?_
    simpa [List.append_assoc] using ih d (e ++ [chunkLine c])

/-- A completing worker admits a full terminating run. -/
theorem bridge_completes_run (cs : List String) :
    BridgeReach .completes (initBridge cs) ⟨[], [], true, cs.map chunkLine⟩ := by
  have h1 : BridgeReach .completes (initBridge cs) ⟨[], cs, false, []⟩ := by
    simpa using bridge_produce_all .completes cs [] []
  have h2 : BridgeStep .completes ⟨[], cs, false, []⟩ ⟨[], cs, true, ([] : List String)⟩ :=
    BridgeStep.finish cs [] rfl
  have h3 : BridgeReach .completes ⟨[], cs, true, []⟩ ⟨[], [], true, cs.map chunkLine⟩ := by
    simpa using bridge_consume_all .completes cs true []
  exact Relation.ReflTransGen.trans h1 (Relation.ReflTransGen.head h2 h3)

/-! ## Lemmas: request dispatch -/

theorem handle_state (ep : Endpoint) (st : ProcState) (d : JValue) :
    (handle ep st d).2 = st := by
  cases ep <;> rfl

theorem exceptBind_error {ε α β : Type} (e : ε) (f : α → Except ε β) :
    (Except.error e >>= f) = Except.error e := rfl

theorem exceptBind_ok {ε α β : Type} (a : α) (f : α → Except ε β) :
    (Except.ok a >>= f : Except ε β) = f a := rfl

/-- The character list of the body (the line minus its newline). -/
theorem chunkBody_data (t : String) :
    ("\x7b\"chunk\": " ++ jsonDumpsStr t ++ "\x7d").data =
      '\x7b' :: '"' :: 'c' :: 'h' :: 'u' :: 'n' :: 'k' :: '"' :: ':' :: ' ' :: '"' ::
        (jsonEscape t.data ++ '"' :: '\x7d' :: []) := by
  have h1 : ("\x7b\"chunk\": ").data =
      ['\x7b', '"', 'c', 'h', 'u', 'n', 'k', '"', ':', ' '] := rfl
  have h2 : ("\x7d").data = ['\x7d'] := rfl
  have h3 : (jsonDumpsStr t).data = '"' :: (jsonEscape t.data ++ ['"']) := rfl
  simp [String.data_append, h1, h2, h3]

/-! ## The claims -/

/-- **C5**: startup fails fatally (a `RuntimeError` is raised before the
server serves any request) whenever the `PYTHONPATH` environment
variable is unset, its split contains fewer than two entries, or the
directory named by its second entry does not contain the model weight
file `moondream-2b-int8.mf.gz`; conversely the startup checks pass — and
execution proceeds to model loading — exactly when all three conditions
hold.  (An empty `PYTHONPATH` is caught by the dedicated first check in
the code; it also has only one split entry, so the claim's condition
classifies it identically.) -/
theorem startup_checks_iff (env : Env) :
    (startupChecks env).isOk = true ↔
      ∃ s, env.pythonpath = some s ∧
        2 ≤ (pySplit pathSep s).length ∧
        env.pathExists (osPathJoin ((pySplit pathSep s).getD 1 "") weightFileName) = true := by
  unfold startupChecks
  cases henv : env.pythonpath with
  | none =>
    rw [show (Option.getD (none : Option String) "") = "" from rfl, if_pos rfl]
    constructor
    · intro h; exact absurd h (by decide)
    · rintro ⟨s, hs, -⟩; exact Option.noConfusion hs
  | some s =>
    rw [show (Option.getD (some s) "") = s from rfl]
    by_cases hs : s = ""
    · subst hs
      rw [if_pos rfl]
      constructor
      · intro h; exact absurd h (by decide)
      · rintro ⟨s', hs', hlen, -⟩
        injection hs' with e
        subst e
        revert hlen; decide
    · rw [if_neg hs]
      by_cases hlen : (pySplit pathSep s).length < 2
      · rw [if_pos hlen]
        constructor
        · intro h; exact absurd h (by decide)
        · rintro ⟨s', hs', hlen', -⟩
          injection hs' with e
          subst e
          omega
      · rw [if_neg hlen]
        by_cases hex : env.pathExists
            (osPathJoin ((pySplit pathSep s).getD 1 "") weightFileName) = true
        · rw [if_pos hex]
          exact ⟨fun _ => ⟨s, rfl, by omega, hex⟩, fun _ => rfl⟩
        · rw [if_neg hex]
          constructor
          · intro h; exact absurd h (by decide)
          · rintro ⟨s', hs', hlen', hex'⟩
            injection hs' with e
            subst e
            exact absurd hex' hex

/-- **C9**: no request handler mutates process-wide state.  Running any
sequence of requests against the module-level bindings leaves the state
(model, tokenizer, libraries) unchanged, and each response equals the
response the same request would get against the initial state — so
observable behaviour of every request is independent of earlier
requests. -/
theorem handlers_no_global_mutation (st : ProcState) (reqs : List (Endpoint × JValue)) :
    (serve st reqs).2 = st ∧
      (serve st reqs).1 = reqs.map (fun r => (handle r.1 st r.2).1) := by
  induction reqs with
  | nil => exact ⟨rfl, rfl⟩
  | cons r rs ih =>
    cases r with
    | mk ep d =>
      constructor
      · simp only [serve, handle_state, ih.1]
      · simp only [serve, handle_state, ih.2, List.map_cons]

/-- **C10 counterexample**: on an input with two commas the code decodes
the text *between* the first and second comma (`split(',')[1]`), not the
whole text after the first comma as the claim states.  `extRecorder`
records exactly the text handed to `base64.b64decode`. -/
theorem process_decodes_second_field_counterexample :
    decodedSegment "data:;base64,QQ==,extra" = some "QQ==" ∧
    textAfterFirstComma "data:;base64,QQ==,extra" = some "QQ==,extra" ∧
    process_base64_image extRecorder "data:;base64,QQ==,extra" =
      .ok ⟨"QQ==".data.map Char.toNat⟩ ∧
    ("QQ==" : String) ≠ "QQ==,extra" := by
  exact ⟨rfl, by decide, rfl, by decide⟩

/-- **C10 amended**: `process_base64_image` raises an unguarded
`IndexError` on every input without a comma; on every input with a
comma it base64-decodes exactly the second comma-separated field — the
text between the first comma and the following comma (or end of
string) — and the prefix before the first comma is never inspected. -/
theorem process_base64_image_spec (ext : ExternalLibs) (s : String) :
    (',' ∉ s.data → process_base64_image ext s = .error .indexError) ∧
    (∀ p r, ',' ∉ p → s.data = p ++ ',' :: r →
      process_base64_image ext s =
        ext.b64decode ⟨r.takeWhile (· ≠ ',')⟩ >>= ext.imageOpen) := by
  constructor
  · intro h
    unfold process_base64_image pySplit
    rw [pySplit1_not_mem ',' s.data h]
    rfl
  · intro p r hp hs
    unfold process_base64_image pySplit
    rw [hs, pySplit1_append_sep ',' p r hp]
    cases hh : pySplit1 ',' r with
    | nil =>
      have hd := pySplit1_head ',' r
      rw [hh] at hd
      exact Option.noConfusion hd
    | cons a t =>
      have hd := pySplit1_head ',' r
      rw [hh] at hd
      simp only [List.head?_cons, Option.some.injEq] at hd
      subst hd
      rfl

/-- **C10 witness**: the amended claim at concrete inputs — no comma
gives `IndexError`; `"data:;base64,QUJD"` decodes exactly `"QUJD"`. -/
theorem process_base64_image_spec_witness :
    process_base64_image extRecorder "plainstring" = .error .indexError ∧
    process_base64_image extRecorder "data:;base64,QUJD" =
      (extRecorder.b64decode "QUJD" >>= extRecorder.imageOpen) := by
  constructor
  · exact (process_base64_image_spec extRecorder "plainstring").1 (by decide)
  · have h := (process_base64_image_spec extRecorder "data:;base64,QUJD").2
      "data:;base64".data "QUJD".data (by decide) (by decide)
    exact h

/-- **C3 counterexample**: a malformed image payload (no comma, so not a
data URL at all) is *not* answered with a client-error (4xx) status: the
handler raises and the framework returns the generic server error 500. -/
theorem malformed_image_status_counterexample :
    statusOf (query extRecorder (modelConst ["a"]) tok0
      (.jobj [("image_url", .jstr "not-a-data-url"), ("question", .jstr "q")])) = 500 ∧
    isClientError 500 = false := ⟨rfl, rfl⟩

/-- **C3 amended**: for every request to any of the four endpoints whose
image payload processing fails (missing/non-string `image_url`, comma
missing, undecodable base64, or undecodable image bytes), the handler
raises and the request is answered with the generic server-error status
500 — the process does not crash and the exception is not propagated
past the framework — rather than a client-error status. -/
theorem malformed_image_yields_500 (ext : ExternalLibs) (m : Model) (tok : Tokenizer)
    (data : JValue) (err : PyErr) (himg : imageOf ext data = .error err) :
    statusOf (query ext m tok data) = 500 ∧
    statusOf (caption ext m tok data) = 500 ∧
    statusOf (query_stream ext m tok data) = 500 ∧
    statusOf (caption_stream ext m tok data) = 500 := by
  refine ⟨?_, ?_, ?_, ?_⟩ <;>
    simp only [query, caption, query_stream, caption_stream, himg, exceptBind_error] <;>
    rfl

/-- **C3 witness**: the amended claim at a concrete malformed payload. -/
theorem malformed_image_yields_500_witness :
    statusOf (query extRecorder (modelConst ["a"]) tok0
      (.jobj [("image_url", .jstr "%%%"), ("question", .jstr "q")])) = 500 ∧
    statusOf (caption extRecorder (modelConst ["a"]) tok0
      (.jobj [("image_url", .jstr "%%%"), ("question", .jstr "q")])) = 500 ∧
    statusOf (query_stream extRecorder (modelConst ["a"]) tok0
      (.jobj [("image_url", .jstr "%%%"), ("question", .jstr "q")])) = 500 ∧
    statusOf (caption_stream extRecorder (modelConst ["a"]) tok0
      (.jobj [("image_url", .jstr "%%%"), ("question", .jstr "q")])) = 500 :=
  malformed_image_yields_500 extRecorder (modelConst ["a"]) tok0
    (.jobj [("image_url", .jstr "%%%"), ("question", .jstr "q")]) .indexError rfl

/-- **C4 counterexample**: a `/query` request with a decodable image but
no `question` field is *not* answered with a client-error (4xx): the
`KeyError` surfaces as the generic server error 500. -/
theorem missing_question_status_counterexample :
    statusOf (query extRecorder (modelConst ["a"]) tok0
      (.jobj [("image_url", .jstr "data:image/png;base64,QUJD")])) = 500 ∧
    isClientError 500 = false := ⟨rfl, rfl⟩

/-- **C4 amended**: every request to `/query` or `/query/stream` whose
JSON body lacks the required `question` field is answered with the
generic server-error status 500 (the `KeyError` raised by
`data["question"]` — or any earlier image failure — is mapped by the
framework to 500, not to a 4xx status). -/
theorem missing_question_yields_500 (ext : ExternalLibs) (m : Model) (tok : Tokenizer)
    (data : JValue) (qerr : PyErr) (hq : getItem data "question" = .error qerr) :
    statusOf (query ext m tok data) = 500 ∧
    statusOf (query_stream ext m tok data) = 500 := by
  cases himg : imageOf ext data with
  | error e =>
    refine ⟨?_, ?_⟩ <;>
      simp only [query, query_stream, himg, exceptBind_error] <;> rfl
  | ok img =>
    refine ⟨?_, ?_⟩ <;>
      simp only [query, query_stream, himg, exceptBind_ok, hq, exceptBind_error] <;> rfl

/-- **C4 witness**: the amended claim at a concrete body lacking
`question`. -/
theorem missing_question_yields_500_witness :
    statusOf (query extRecorder (modelConst ["a"]) tok0
      (.jobj [("image_url", .jstr "data:image/png;base64,QUJD")])) = 500 ∧
    statusOf (query_stream extRecorder (modelConst ["a"]) tok0
      (.jobj [("image_url", .jstr "data:image/png;base64,QUJD")])) = 500 :=
  missing_question_yields_500 extRecorder (modelConst ["a"]) tok0
    (.jobj [("image_url", .jstr "data:image/png;base64,QUJD")])
    (.keyError "question") rfl

/-- **C6**: every successful `/query` response is a JSON object of shape
`{"answer": <text>}`, and every successful `/caption` response is
`{"caption": <text>}`, where the text is the model's generation result
for the decoded image — and `/caption` supplies the fixed prompt string
`"Generate a detailed caption for this image."` in place of a user
question. -/
theorem response_shapes (ext : ExternalLibs) (m : Model) (tok : Tokenizer)
    (data : JValue) (r : Response) :
    (query ext m tok data = .ok r →
      ∃ img q, imageOf ext data = .ok img ∧ getItem data "question" = .ok q ∧
        r = .json (.jobj [("answer",
          .jstr (m.answer_question (m.encode_image img) q tok))])) ∧
    (caption ext m tok data = .ok r →
      ∃ img, imageOf ext data = .ok img ∧
        r = .json (.jobj [("caption",
          .jstr (m.answer_question (m.encode_image img)
            (.jstr "Generate a detailed caption for this image.") tok))])) := by
  constructor
  · intro h
    cases himg : imageOf ext data with
    | error e =>
      rw [query, himg] at h
      exact Except.noConfusion h
    | ok img =>
      rw [query, himg] at h
      cases hq : getItem data "question" with
      | error e =>
        rw [exceptBind_ok, hq, exceptBind_error] at h
        exact Except.noConfusion h
      | ok q =>
        rw [exceptBind_ok, hq, exceptBind_ok] at h
        injection h with h
        exact ⟨img, q, rfl, rfl, h.symm⟩
  · intro h
    cases himg : imageOf ext data with
    | error e =>
      rw [caption, himg] at h
      exact Except.noConfusion h
    | ok img =>
      rw [caption, himg] at h
      rw [exceptBind_ok] at h
      injection h with h
      exact ⟨img, rfl, h.symm⟩

/-- **C6 witness**: a concrete successful request pair. -/
theorem response_shapes_witness :
    (∃ img q, imageOf extRecorder body0 = .ok img ∧
      getItem body0 "question" = .ok q ∧
      Response.json (.jobj [("answer", .jstr "Hello")]) = .json (.jobj [("answer",
        .jstr ((modelConst ["Hel", "lo"]).answer_question
          ((modelConst ["Hel", "lo"]).encode_image img) q tok0))])) ∧
    ∃ img, imageOf extRecorder body0 = .ok img ∧
      Response.json (.jobj [("caption", .jstr "Hello")]) = .json (.jobj [("caption",
        .jstr ((modelConst ["Hel", "lo"]).answer_question
          ((modelConst ["Hel", "lo"]).encode_image img)
          (.jstr "Generate a detailed caption for this image.") tok0))]) :=
  ⟨(response_shapes extRecorder (modelConst ["Hel", "lo"]) tok0 body0
      (.json (.jobj [("answer", .jstr "Hello")]))).1 rfl,
   (response_shapes extRecorder (modelConst ["Hel", "lo"]) tok0 body0
      (.json (.jobj [("caption", .jstr "Hello")]))).2 rfl⟩

/-- **C1**: whenever generation succeeds, the concatenation of the
`chunk` field values across all emitted ndjson lines of a streaming
endpoint equals the single string the corresponding non-streaming
endpoint returns for the same image and prompt (`/query/stream` vs
`/query`, and `/caption/stream` vs `/caption`). -/
theorem stream_concat_eq_answer (ext : ExternalLibs) (m : Model) (tok : Tokenizer)
    (data : JValue) (lines : List String) (a : String) :
    (query_stream ext m tok data = .ok (.stream lines) →
      query ext m tok data = .ok (.json (.jobj [("answer", .jstr a)])) →
      joinedChunks lines = some a) ∧
    (caption_stream ext m tok data = .ok (.stream lines) →
      caption ext m tok data = .ok (.json (.jobj [("caption", .jstr a)])) →
      joinedChunks lines = some a) := by
  constructor
  · intro h1 h2
    cases himg : imageOf ext data with
    | error e =>
      rw [query_stream, himg] at h1
      exact Except.noConfusion h1
    | ok img =>
      cases hq : getItem data "question" with
      | error e =>
        rw [query_stream, himg, exceptBind_ok, hq, exceptBind_error] at h1
        exact Except.noConfusion h1
      | ok q =>
        rw [query_stream, himg, exceptBind_ok, hq, exceptBind_ok] at h1
        rw [query, himg, exceptBind_ok, hq, exceptBind_ok] at h2
        injection h1 with h1
        injection h2 with h2
        injection h1 with h1
        injection h2 with h2
        subst h1
        rw [stream_response, joinedChunks_map_chunkLine]
        simp only [JValue.jobj.injEq, List.cons.injEq, Prod.mk.injEq, JValue.jstr.injEq,
          and_true, true_and] at h2
        rw [← h2]
        rfl
  · intro h1 h2
    cases himg : imageOf ext data with
    | error e =>
      rw [caption_stream, himg] at h1
      exact Except.noConfusion h1
    | ok img =>
      rw [caption_stream, himg, exceptBind_ok] at h1
      rw [caption, himg, exceptBind_ok] at h2
      injection h1 with h1
      injection h2 with h2
      injection h1 with h1
      injection h2 with h2
      subst h1
      rw [stream_response, joinedChunks_map_chunkLine]
      simp only [JValue.jobj.injEq, List.cons.injEq, Prod.mk.injEq, JValue.jstr.injEq,
        and_true, true_and] at h2
      rw [← h2]
      rfl

/-- **C1 witness**: concrete image and prompt; the stream's chunk fields
join to the non-streaming answer. -/
theorem stream_concat_eq_answer_witness :
    joinedChunks [chunkLine "Hel", chunkLine "lo"] = some "Hello" :=
  (stream_concat_eq_answer extRecorder (modelConst ["Hel", "lo"]) tok0 body0
    [chunkLine "Hel", chunkLine "lo"] "Hello").1 rfl rfl

/-- **C2**: every line emitted by a streaming endpoint is an
independently parseable JSON object with exactly one key, `chunk`, whose
value is a string, and the object is followed by exactly one newline
record separator (the rest of the line is newline-free). -/
theorem stream_lines_ndjson (ext : ExternalLibs) (m : Model) (tok : Tokenizer)
    (data : JValue) (lines : List String)
    (h : query_stream ext m tok data = .ok (.stream lines) ∨
         caption_stream ext m tok data = .ok (.stream lines)) :
    ∀ line ∈ lines, ∃ body t,
      line = body ++ "\n" ∧
      (∀ c ∈ body.data, c ≠ '\n') ∧
      jsonParse body = some (.jobj [("chunk", .jstr t)]) := by
  have hmap : ∃ cs : List String, lines = cs.map chunkLine := by
    rcases h with h | h
    · cases himg : imageOf ext data with
      | error e =>
        rw [query_stream, himg] at h
        exact Except.noConfusion h
      | ok img =>
        cases hq : getItem data "question" with
        | error e =>
          rw [query_stream, himg, exceptBind_ok, hq, exceptBind_error] at h
          exact Except.noConfusion h
        | ok q =>
          rw [query_stream, himg, exceptBind_ok, hq, exceptBind_ok] at h
          injection h with h
          injection h with h
          exact ⟨_, h.symm⟩
    · cases himg : imageOf ext data with
      | error e =>
        rw [caption_stream, himg] at h
        exact Except.noConfusion h
      | ok img =>
        rw [caption_stream, himg, exceptBind_ok] at h
        injection h with h
        injection h with h
        exact ⟨_, h.symm⟩
  obtain ⟨cs, rfl⟩ := hmap
  intro line hline
  rw [List.mem_map] at hline
  obtain ⟨t, -, rfl⟩ := hline
  refine ⟨"\x7b\"chunk\": " ++ jsonDumpsStr t ++ "\x7d", t, ?_, ?_, ?_⟩
  · rw [chunkLine, show ("\x7d\n" : String) = "\x7d" ++ "\n" from rfl,
      ← String.append_assoc]
  · intro c hc
    rw [chunkBody_data] at hc
    simp only [List.mem_cons, List.mem_append, List.not_mem_nil, or_false] at hc
    rcases hc with rfl | rfl | rfl | rfl | rfl | rfl | rfl | rfl | rfl | rfl | rfl |
      hmem | rfl | rfl
    · decide
    · decide
    · decide
    · decide
    · decide
    · decide
    · decide
    · decide
    · decide
    · decide
    · decide
    · have hp := jsonEscape_printable t.data c hmem
      intro he
      subst he
      exact absurd hp.1 (by decide)
    · decide
    · decide
  · exact jsonParse_chunkObj _ t [] (chunkBody_data t) rfl

/-- **C2 witness**: a concrete emitted line decomposes as required. -/
theorem stream_lines_ndjson_witness :
    ∃ body t, chunkLine "hi" = body ++ "\n" ∧ (∀ c ∈ body.data, c ≠ '\n') ∧
      jsonParse body = some (.jobj [("chunk", .jstr t)]) :=
  stream_lines_ndjson extRecorder (modelConst ["hi"]) tok0 body0 [chunkLine "hi"]
    (Or.inl rfl) (chunkLine "hi") (List.mem_singleton.mpr rfl)

/-- **C7**: for every streaming request, under every interleaving of the
worker thread and the consuming generator, the lines delivered to the
HTTP consumer are always a prefix of the generated sequence in
generation order (FIFO: no reordering, no duplication, no dropping),
and when the worker completes, a terminating run exists and every
terminated (closed) run has delivered exactly `stream_response`'s finite
line sequence. -/
theorem bridge_fifo_terminating (m : Model) (tok : Tokenizer) (e : ImageEmbeds)
    (q : JValue) :
    (∀ s, BridgeReach .completes (initBridge (m.chunksOf e q tok)) s →
      (∃ k, s.emitted = ((m.chunksOf e q tok).take k).map chunkLine) ∧
      (s.closed → s.emitted = stream_response m tok e q)) ∧
    ∃ s, BridgeReach .completes (initBridge (m.chunksOf e q tok)) s ∧ s.closed := by
  constructor
  · intro s hs
    obtain ⟨i, j, hij, hjl, he, hq', hp, hd⟩ :=
      bridge_invariant .completes (m.chunksOf e q tok) s hs
    refine ⟨⟨i, he⟩, ?_⟩
    rintro ⟨hdone, hqnil⟩
    obtain ⟨-, hj⟩ := hd hdone
    subst hj
    rw [hqnil] at hq'
    have hlen : ((m.chunksOf e q tok).take (m.chunksOf e q tok).length).length ≤ i :=
      List.drop_eq_nil_iff.mp hq'.symm
    rw [List.take_length] at hlen
    have hi : i = (m.chunksOf e q tok).length := by omega
    rw [he, hi, List.take_length]
    rfl
  · exact ⟨⟨[], [], true, (m.chunksOf e q tok).map chunkLine⟩,
      bridge_completes_run (m.chunksOf e q tok), rfl, rfl⟩

/-- **C7 witness**: a concrete complete run delivers exactly the wrapped
chunk sequence. -/
theorem bridge_fifo_terminating_witness :
    BridgeState.emitted ⟨[], [], true, [chunkLine "Hi"]⟩ =
      stream_response (modelConst ["Hi"]) tok0 ⟨0⟩ (.jstr "q") :=
  ((bridge_fifo_terminating (modelConst ["Hi"]) tok0 ⟨0⟩ (.jstr "q")).1
    ⟨[], [], true, [chunkLine "Hi"]⟩
    (Relation.ReflTransGen.head (BridgeStep.produce "Hi" [] [] [])
      (Relation.ReflTransGen.head (BridgeStep.finish ["Hi"] [] rfl)
        (Relation.ReflTransGen.head (BridgeStep.consume "Hi" [] [] true [])
          Relation.ReflTransGen.refl)))).2 ⟨rfl, rfl⟩

/-- **C8**: when the generation worker raises after producing a prefix
of its fragments, nothing error-like ever reaches the consumer: in every
reachable bridge state the emitted lines are just normally wrapped
generated chunks (no terminal error record), the end signal is never
placed, and the stream is never closed — the failure is simply not
surfaced. -/
theorem worker_raise_not_surfaced (m : Model) (tok : Tokenizer) (e : ImageEmbeds)
    (q : JValue) (jn : Nat) (s : BridgeState)
    (h : BridgeReach .raises (initBridge ((m.chunksOf e q tok).take jn)) s) :
    s.done = false ∧ ¬ s.closed ∧
    ∃ k, s.emitted = (((m.chunksOf e q tok).take jn).take k).map chunkLine := by
  obtain ⟨i, j, hij, hjl, he, hq', hp, hd⟩ :=
    bridge_invariant .raises ((m.chunksOf e q tok).take jn) s h
  have hdone : s.done = false := by
    cases hdn : s.done
    · rfl
    · obtain ⟨hcontr, -⟩ := hd hdn
      exact WorkerOutcome.noConfusion hcontr
  refine ⟨hdone, ?_, ⟨i, he⟩⟩
  rintro ⟨hcl, -⟩
  rw [hdone] at hcl
  exact Bool.noConfusion hcl

/-- **C8 witness**: a concrete run in which the worker raised after one
of two fragments: the consumer got that one normally wrapped line, no
error line, and the stream is not closed. -/
theorem worker_raise_not_surfaced_witness :
    BridgeState.done ⟨[], [], false, [chunkLine "a"]⟩ = false ∧
    ¬ BridgeState.closed ⟨[], [], false, [chunkLine "a"]⟩ ∧
    ∃ k, BridgeState.emitted ⟨[], [], false, [chunkLine "a"]⟩ =
      (((modelConst ["a", "b"]).chunksOf ⟨0⟩ (.jstr "q") tok0).take 1 |>.take k).map
        chunkLine :=
  worker_raise_not_surfaced (modelConst ["a", "b"]) tok0 ⟨0⟩ (.jstr "q") 1
    ⟨[], [], false, [chunkLine "a"]⟩
    (Relation.ReflTransGen.head (BridgeStep.produce "a" [] [] [])
      (Relation.ReflTransGen.head (BridgeStep.consume "a" [] [] false [])
        Relation.ReflTransGen.refl))

/-! Concrete sanity checks of the executable embedding. -/

example : pySplit ',' "a,b,c" = ["a", "b", "c"] := by decide
example : chunkLine "hi" = "\x7b\"chunk\": \"hi\"\x7d\n" := by decide
example : chunkFieldValue (chunkLine "hi") = some "hi" := by decide
example : chunkFieldValue (chunkLine "a\"b\\c\nd") = some "a\"b\\c\nd" := by decide
example : chunkFieldValue (chunkLine "héllo 🚀") = some "héllo 🚀" := by decide
example : jsonParse "\x7b\"a\": 1, \"b\": true\x7d" =
    some (.jobj [("a", .jnum "1"), ("b", .jbool true)]) := rfl
example : jsonParse "\x7b\"a\": 1,\x7d" = none := rfl
example : joinedChunks [chunkLine "ab", chunkLine "cd"] = some "abcd" := by decide

end MoondreamServer
